import Mathlib

/-!
Verification of the YouTube-Shorts automation pipeline
(src/main.py, src/modules/editor.py).

The tracking store is a Python dict keyed by video id; a dict preserves
insertion order, so it is embedded as an ordered association list.
Statuses are the literal strings the program stores.  Integer arithmetic
in the layout planner follows Python semantics: the builtin int() on a
nonnegative product truncates toward zero (Int.tdiv on rationals), and
the Python modulo operator agrees with Int.emod.  Filter graphs are the
exact interpolated strings the code hands to the external transcoder.
-/

namespace ShortsAutomation

/-- One record of the tracking store, as created by scrape_channel
(src/main.py lines 83-94). -/
structure VideoRecord where
  title : String
  views : Nat
  duration : String
  published : String
  url : String
  status : String
  parts_uploaded : List Nat
  youtube_video_ids : List String
  downloaded_at : Option String
  last_upload : Option String
  deriving Repr, DecidableEq

/-- One entry of the list returned by the scraper
(src/modules/scraper.py extract_videos_from_page); the published label
is optional because main.py reads it with video.get with a default. -/
structure ScrapedVideo where
  id : String
  title : String
  views : Nat
  duration : String
  published : Option String
  url : String
  deriving Repr, DecidableEq

/-- The tracking store (tracking.json): global metadata plus the ordered
mapping of video id to record. -/
structure TrackingStore where
  channel_url : String
  last_scrape : Option String
  videos : List (String × VideoRecord)
  deriving Repr, DecidableEq

/-- Dict lookup: first entry with the given key (keys are unique in a
Python dict, so first-match lookup is exact). -/
def lookupVid : List (String × VideoRecord) → String → Option VideoRecord
  | [], _ => none
  | p :: rest, id => if p.1 = id then some p.2 else lookupVid rest id

/-- Dict update of an existing key in place: the entry keeps its position
in the insertion order. -/
def updateVid : List (String × VideoRecord) → String → (VideoRecord → VideoRecord) → List (String × VideoRecord)
  | [], _, _ => []
  | p :: rest, id, f =>
    if p.1 = id then (p.1, f p.2) :: rest else p :: updateVid rest id f

/-- video.get with the default used by scrape_channel
(src/main.py lines 87 and 98). -/
def publishedLabel (v : ScrapedVideo) : String :=
  match v.published with
  | some p => p
  | none => "Unknown"

/-- The fresh record inserted for a newly discovered id
(src/main.py lines 83-94). -/
def freshRecord (v : ScrapedVideo) : VideoRecord :=
  { title := v.title
    views := v.views
    duration := v.duration
    published := publishedLabel v
    url := v.url
    status := "pending"
    parts_uploaded := []
    youtube_video_ids := []
    downloaded_at := none
    last_upload := none }

/-- The body of the for-loop of scrape_channel (src/main.py lines 80-98):
a new id is appended with a fresh pending record, an existing id has only
views and published overwritten. -/
def mergeVideo (videos : List (String × VideoRecord)) (v : ScrapedVideo) : List (String × VideoRecord) :=
  match lookupVid videos v.id with
  | none => videos ++ [(v.id, freshRecord v)]
  | some _ =>
    updateVid videos v.id fun r => { r with views := v.views, published := publishedLabel v }

/-- scrape_channel (src/main.py lines 68-102): set the global metadata and
merge every scraped video into the ordered mapping. -/
def scrapeChannel (st : TrackingStore) (channel_url now : String)
    (scraped : List ScrapedVideo) : TrackingStore :=
  { channel_url := channel_url
    last_scrape := some now
    videos := scraped.foldl mergeVideo st.videos }

/-- The selection step of download_next_video (src/main.py lines 110-121):
keep the records whose status is not completed, in store order, and take
the first one; none when the filtered list is empty. -/
def selectNext (videos : List (String × VideoRecord)) : Option (String × VideoRecord) :=
  (videos.filter fun p => p.2.status != "completed").head?

/-- Result of one call of the external uploader for one segment, as
distinguished by upload_segments (src/main.py lines 212-239): a returned
id, a falsy return value, or a raised exception. -/
inductive UploadOutcome where
  | success (id : String)
  | failure
  | error
  deriving Repr, DecidableEq

/-- One attempted segment upload: the 1-based part number together with
the outcome of the external call. -/
structure UploadStep where
  part_num : Nat
  outcome : UploadOutcome
  deriving Repr, DecidableEq

/-- Whether the external call returned an id. -/
def UploadOutcome.isSuccess : UploadOutcome → Bool
  | success _ => true
  | _ => false

/-- Whether the external call raised an exception. -/
def UploadOutcome.isError : UploadOutcome → Bool
  | error => true
  | _ => false

/-- The upload loop of upload_segments (src/main.py lines 212-239).
Returns (uploaded_ids, failed, number of inter-upload delays).
A success appends the id, a falsy return or an exception appends the part
number to failed; the delay runs for every iteration except the last one,
but it sits inside the try block after the upload call, so an iteration
whose upload raised skips its delay. -/
def uploadLoop : List UploadStep → List String × List Nat × Nat
  | [] => ([], [], 0)
  | step :: rest =>
    let tail := uploadLoop rest
    match step.outcome with
    | UploadOutcome.success id =>
      (id :: tail.1, tail.2.1, tail.2.2 + (if rest.isEmpty then 0 else 1))
    | UploadOutcome.failure =>
      (tail.1, step.part_num :: tail.2.1, tail.2.2 + (if rest.isEmpty then 0 else 1))
    | UploadOutcome.error =>
      (tail.1, step.part_num :: tail.2.1, tail.2.2)

/-- upload_segments (src/main.py lines 209-260) restricted to its effect on
the tracking record: youtube_video_ids is assigned the list of this
invocation, parts_uploaded is renumbered 1..success-count, last_upload is
stamped, and the status becomes completed when failed is empty and partial
otherwise.  Returns the updated record with the successful ids and the
failed part numbers. -/
def uploadSegments (r : VideoRecord) (steps : List UploadStep) (now : String) :
    VideoRecord × List String × List Nat :=
  let result := uploadLoop steps
  ({ r with
      youtube_video_ids := result.1
      parts_uploaded := List.range' 1 result.1.length
      last_upload := some now
      status := if result.2.1 = [] then "completed" else "partial" },
   result.1, result.2.1)

/-- The ids of the successful uploads, in order. -/
def successIds (steps : List UploadStep) : List String :=
  steps.filterMap fun s =>
    match s.outcome with
    | UploadOutcome.success id => some id
    | _ => none

/-- The part numbers of the attempts that did not return an id. -/
def failedParts (steps : List UploadStep) : List Nat :=
  steps.filterMap fun s =>
    match s.outcome with
    | UploadOutcome.success _ => none
    | _ => some s.part_num

/-- Number of successful uploads. -/
def successCount (steps : List UploadStep) : Nat :=
  (steps.filter fun s => s.outcome.isSuccess).length

/-- Number of failed uploads (falsy return or exception). -/
def failCount (steps : List UploadStep) : Nat :=
  (steps.filter fun s => !s.outcome.isSuccess).length

/-- Number of inter-upload delays the loop performs: one for every
attempt except the last, minus the attempts that raised. -/
def delayCount (steps : List UploadStep) : Nat :=
  (steps.dropLast.filter fun s => !s.outcome.isError).length

/-- The Python builtin int() applied to an exact rational: truncation
toward zero, that is floor for nonnegative arguments and ceiling for
negative ones. -/
def pyInt (q : ℚ) : ℤ :=
  if q < 0 then ⌈q⌉ else ⌊q⌋

/-- The region heights computed by _build_filter_split_screen
(src/modules/editor.py lines 255-272). -/
structure SplitLayout where
  header_h : ℤ
  available_h : ℤ
  top_h : ℤ
  bottom_h : ℤ
  deriving Repr, DecidableEq

/-- The arithmetic of _build_filter_split_screen (src/modules/editor.py
lines 263-272): a fixed 180 pixel header, available = out_h - 180,
top = int(available * pct) lowered by one when odd, bottom the rest.
The canvas width plays no part in the heights. -/
def buildSplitLayout (out_h : ℤ) (top_pct : ℚ) : SplitLayout :=
  let header_h : ℤ := 180
  let available_h := out_h - header_h
  let t0 := pyInt ((available_h : ℚ) * top_pct)
  let top_h := if t0 % 2 ≠ 0 then t0 - 1 else t0
  { header_h := header_h
    available_h := available_h
    top_h := top_h
    bottom_h := available_h - top_h }

/-- The filter string returned by _build_filter_split_screen
(src/modules/editor.py lines 276-293), with the layout numbers
interpolated exactly as the f-strings do. -/
def splitScreenFilter (out_w out_h : ℤ) (top_pct : ℚ) : String :=
  let L := buildSplitLayout out_h top_pct
  "[0:v]hflip,scale=" ++ toString out_w ++ ":" ++ toString L.top_h ++
    ":force_original_aspect_ratio=increase,crop=" ++ toString out_w ++ ":" ++
    toString L.top_h ++ "[top];" ++
    "[1:v]scale=" ++ toString out_w ++ ":" ++ toString L.bottom_h ++
    ":force_original_aspect_ratio=increase,crop=" ++ toString out_w ++ ":" ++
    toString L.bottom_h ++ "[bottom];" ++
    "[top][bottom]vstack[stacked];" ++
    "[stacked]pad=" ++ toString out_w ++ ":" ++ toString out_h ++ ":0:" ++
    toString L.header_h ++ ":black[padded];" ++
    "[padded][2:v]overlay=(W-w)/2:0[v_out]"

/-- The three aspect-ratio branches of _build_filter_with_blur_background. -/
inductive AspectBranch where
  | wide
  | narrow
  | equal
  deriving Repr, DecidableEq

/-- The branch selection of _build_filter_with_blur_background
(src/modules/editor.py lines 296-324): the source ratio in_w / in_h is
compared with the target ratio out_w / out_h (exact rational division in
place of Python float division). -/
def blurBranch (in_w in_h out_w out_h : ℕ) : AspectBranch :=
  let target_aspect : ℚ := (out_w : ℚ) / (out_h : ℚ)
  let current_aspect : ℚ := (in_w : ℚ) / (in_h : ℚ)
  if current_aspect > target_aspect then AspectBranch.wide
  else if current_aspect < target_aspect then AspectBranch.narrow
  else AspectBranch.equal

/-- The filter string returned by _build_filter_with_blur_background
(src/modules/editor.py lines 296-324), one template per aspect branch,
with the target dimensions interpolated exactly as the f-strings do.
The if/elif/else of the source is factored through blurBranch, which
holds the identical comparisons. -/
def blurFilter (in_w in_h out_w out_h : ℕ) : String :=
  match blurBranch in_w in_h out_w out_h with
  | AspectBranch.wide =>
    "[0:v]split=2[bg_in][fg_in];[bg_in]scale=" ++ toString out_w ++ ":" ++
      toString out_h ++ ":force_original_aspect_ratio=increase,crop=" ++
      toString out_w ++ ":" ++ toString out_h ++
      ",gblur=sigma=18,eq=brightness=-0.3:saturation=0.5[bg];[fg_in]scale=" ++
      toString out_w ++
      ":-2[fg_scaled];[bg][fg_scaled]overlay=(W-w)/2:(H-h)/2[video_out];" ++
      "[video_out][1:v]overlay=(W-w)/2:0[outv]"
  | AspectBranch.narrow =>
    "[0:v]scale=" ++ toString out_w ++ ":-2,crop=" ++ toString out_w ++ ":" ++
      toString out_h ++ "[scaled];[scaled][1:v]overlay=(W-w)/2:0[outv]"
  | AspectBranch.equal =>
    "[0:v]scale=" ++ toString out_w ++ ":" ++ toString out_h ++
      "[scaled];[scaled][1:v]overlay=(W-w)/2:0[outv]"

/-- Modelled on-disk state of tracking.json when _save_tracking
(src/main.py lines 63-66) stops after writing k characters.  Python
open(path, mode w) truncates the existing file before json.dump streams
the new serialization, so the state is a prefix of the new text and the
prior content does not participate at all; the prior argument records
what the file held before the call. -/
def saveTrackingDiskState (prior serialized : String) (k : ℕ) : String :=
  ⟨serialized.data.take k⟩

/-- The last scraped entry carrying a given id, the one whose views and
published label survive the merge. -/
def lastScrapeOf (l : List ScrapedVideo) (id : String) : Option ScrapedVideo :=
  (l.filter fun v => v.id == id).getLast?

/-- Three segments whose second upload fails by a falsy return value
(the spec example for advancePublish). -/
def stepsOneFail : List UploadStep :=
  [⟨1, UploadOutcome.success ("A")⟩, ⟨2, UploadOutcome.failure⟩,
   ⟨3, UploadOutcome.success ("C")⟩]

/-- Three segments whose second upload fails by raising an exception. -/
def stepsErrMid : List UploadStep :=
  [⟨1, UploadOutcome.success ("A")⟩, ⟨2, UploadOutcome.error⟩,
   ⟨3, UploadOutcome.success ("C")⟩]

/-- A single successful upload, as on a retry run of a partly published
video. -/
def stepsRetry : List UploadStep :=
  [⟨1, UploadOutcome.success ("B")⟩]

/-- A record as upload_segments finds it on a partly published video:
one id from an earlier invocation is already stored. -/
def sampleRecord : VideoRecord :=
  { title := "t"
    views := 5
    duration := "10:00"
    published := "1 day ago"
    url := "u"
    status := "processed"
    parts_uploaded := [1]
    youtube_video_ids := ["earlier"]
    downloaded_at := some "d0"
    last_upload := some "u0" }

/-- A record already carried through the download stage. -/
def rec0 : VideoRecord :=
  { title := "t0"
    views := 5
    duration := "9:00"
    published := "2 days ago"
    url := "u0"
    status := "downloaded"
    parts_uploaded := []
    youtube_video_ids := []
    downloaded_at := some "d"
    last_upload := none }

/-- rec0 with status completed. -/
def recCompleted : VideoRecord :=
  { rec0 with status := "completed" }

/-- rec0 with status pending. -/
def recPending : VideoRecord :=
  { rec0 with status := "pending" }

/-- rec0 in the terminal-but-retryable state. -/
def recRetryable : VideoRecord :=
  { rec0 with status := "partial" }

/-- A store holding one already-known record. -/
def st0 : TrackingStore :=
  { channel_url := "c"
    last_scrape := none
    videos := [("a", rec0)] }

/-- A scrape result carrying a fresh view count for the known id and one
new id. -/
def scraped0 : List ScrapedVideo :=
  [⟨"a", "t0", 7, "9:00", some "3 days ago", "u0"⟩,
   ⟨"b", "tb", 1, "1:00", none, "ub"⟩]

/-- The spec example store order for selectNext: completed, pending,
retryable. -/
def videos1 : List (String × VideoRecord) :=
  [("v1", recCompleted), ("v2", recPending), ("v3", recRetryable)]

/-! Helper lemmas. -/

theorem toDigitsCore_chars (fuel n : ℕ) (ds : List Char) (c : Char)
    (hc : c ∈ Nat.toDigitsCore 10 fuel n ds) :
    c ∈ ds ∨ ∃ k, k < 10 ∧ c = Nat.digitChar k := by
  induction fuel generalizing n ds with
  | zero =>
    simp only [Nat.toDigitsCore] at hc
    exact Or.inl hc
  | succ f ih =>
    simp only [Nat.toDigitsCore] at hc
    by_cases h : n / 10 = 0
    · rw [if_pos h] at hc
      rcases List.mem_cons.mp hc with h1 | h1
      · exact Or.inr ⟨n % 10, Nat.mod_lt _ (by norm_num), h1⟩
      · exact Or.inl h1
    · rw [if_neg h] at hc
      rcases ih _ _ hc with h1 | h1
      · rcases List.mem_cons.mp h1 with h2 | h2
        · exact Or.inr ⟨n % 10, Nat.mod_lt _ (by norm_num), h2⟩
        · exact Or.inl h2
      · exact Or.inr h1

theorem digitChar_not_alpha (k : ℕ) (hk : k < 10) :
    (Nat.digitChar k).isAlpha = false := by
  interval_cases k <;> decide

/-- The decimal rendering of a natural number holds no letters: used to
show that no interpolated dimension can create a filter keyword. -/
theorem alpha_filter_toString_nat (n : ℕ) :
    List.filter Char.isAlpha (toString n).data = [] := by
  have hd : (toString n).data = Nat.toDigitsCore 10 (n + 1) n [] := rfl
  rw [hd, List.filter_eq_nil_iff]
  intro c hc
  rcases toDigitsCore_chars _ _ _ _ hc with h | ⟨k, hk, rfl⟩
  · simp at h
  · simp [digitChar_not_alpha k hk]

/-- A contiguous occurrence made only of characters kept by the filter
survives filtering. -/
theorem isInfix_filter_of_all {l s : List Char} {p : Char → Bool}
    (hall : ∀ c ∈ l, p c = true) (h : l <:+: s) : l <:+: s.filter p := by
  obtain ⟨a, b, rfl⟩ := h
  rw [List.filter_append, List.filter_append, List.filter_eq_self.mpr hall]
  exact ⟨a.filter p, b.filter p, rfl⟩

theorem lookupVid_append_some {vs : List (String × VideoRecord)} {id : String}
    {r : VideoRecord} (h : lookupVid vs id = some r) (l : List (String × VideoRecord)) :
    lookupVid (vs ++ l) id = some r := by
  induction vs with
  | nil => simp [lookupVid] at h
  | cons p rest ih =>
    rw [List.cons_append]
    by_cases hp : p.1 = id
    · simp only [lookupVid, if_pos hp] at h ⊢
      exact h
    · simp only [lookupVid, if_neg hp] at h ⊢
      exact ih h

theorem lookupVid_append_none {vs : List (String × VideoRecord)} {id : String}
    (h : lookupVid vs id = none) (l : List (String × VideoRecord)) :
    lookupVid (vs ++ l) id = lookupVid l id := by
  induction vs with
  | nil => rfl
  | cons p rest ih =>
    rw [List.cons_append]
    by_cases hp : p.1 = id
    · simp only [lookupVid, if_pos hp] at h
      simp at h
    · simp only [lookupVid, if_neg hp] at h ⊢
      exact ih h

theorem lookupVid_update_self (vs : List (String × VideoRecord)) (id : String)
    (f : VideoRecord → VideoRecord) :
    lookupVid (updateVid vs id f) id = (lookupVid vs id).map f := by
  induction vs with
  | nil => rfl
  | cons p rest ih =>
    by_cases hp : p.1 = id
    · simp [lookupVid, updateVid, hp]
    · simp [lookupVid, updateVid, hp, ih]

theorem lookupVid_update_ne (vs : List (String × VideoRecord)) (k : String)
    (f : VideoRecord → VideoRecord) (id : String) (h : id ≠ k) :
    lookupVid (updateVid vs k f) id = lookupVid vs id := by
  have hk : ¬ k = id := fun he => h he.symm
  induction vs with
  | nil => rfl
  | cons p rest ih =>
    by_cases hp : p.1 = k
    · simp [lookupVid, updateVid, hp, hk]
    · simp [lookupVid, updateVid, hp, ih]

theorem getLast?_cons_of_some {α : Type} {l : List α} {w : α} (a : α)
    (h : l.getLast? = some w) : (a :: l).getLast? = some w := by
  cases l with
  | nil => simp at h
  | cons b t => rw [List.getLast?_cons_cons]; exact h

/-- One merge step leaves every field of a record with a different id
untouched, and the record stays reachable. -/
theorem mergeVideo_lookup_other {vs : List (String × VideoRecord)} {id : String}
    {r : VideoRecord} (v : ScrapedVideo) (hvid : ¬ v.id = id)
    (h : lookupVid vs id = some r) :
    lookupVid (mergeVideo vs v) id = some r := by
  unfold mergeVideo
  cases hlv : lookupVid vs v.id with
  | none => exact lookupVid_append_some h _
  | some _ =>
    rw [lookupVid_update_ne _ _ _ _ (fun he => hvid he.symm)]
    exact h

/-- After folding a scrape list over the store, a record that was present
keeps every field except views and published, and those two are refreshed
from the last scraped entry with its id (or kept when none mentions it). -/
theorem mergeFold_present (l : List ScrapedVideo) (vs : List (String × VideoRecord))
    (id : String) (r : VideoRecord) (h : lookupVid vs id = some r) :
    ∃ r2, lookupVid (l.foldl mergeVideo vs) id = some r2 ∧
      r2.title = r.title ∧ r2.duration = r.duration ∧ r2.url = r.url ∧
      r2.status = r.status ∧ r2.parts_uploaded = r.parts_uploaded ∧
      r2.youtube_video_ids = r.youtube_video_ids ∧
      r2.downloaded_at = r.downloaded_at ∧ r2.last_upload = r.last_upload ∧
      (lastScrapeOf l id = none → r2.views = r.views ∧ r2.published = r.published) ∧
      (∀ v, lastScrapeOf l id = some v →
        r2.views = v.views ∧ r2.published = publishedLabel v) := by
  induction l generalizing vs r with
  | nil =>
    refine ⟨r, h, rfl, rfl, rfl, rfl, rfl, rfl, rfl, rfl, fun _ => ⟨rfl, rfl⟩, fun v hv => ?_⟩
    simp [lastScrapeOf] at hv
  | cons v rest ih =>
    rw [List.foldl_cons]
    by_cases hvid : v.id = id
    · have hlv : lookupVid vs v.id = some r := by rw [hvid]; exact h
      have hstep : lookupVid (mergeVideo vs v) id = some
          { r with views := v.views, published := publishedLabel v } := by
        unfold mergeVideo
        rw [hlv, ← hvid, lookupVid_update_self, hlv]
        rfl
      obtain ⟨r2, hr2, ht, hd, hu, hs, hp, hy, hda, hlu, hnone, hsome⟩ :=
        ih (mergeVideo vs v) _ hstep
      have hbeq : (v.id == id) = true := beq_iff_eq.mpr hvid
      refine ⟨r2, hr2, ht, hd, hu, hs, hp, hy, hda, hlu, ?_, ?_⟩
      · intro habs
        exfalso
        cases hrest : lastScrapeOf rest id with
        | none =>
          have hfil : (rest.filter fun w => w.id == id) = [] := by
            unfold lastScrapeOf at hrest
            exact List.getLast?_eq_none_iff.mp hrest
          unfold lastScrapeOf at habs
          rw [List.filter_cons, if_pos hbeq, hfil] at habs
          simp at habs
        | some w =>
          unfold lastScrapeOf at habs hrest
          rw [List.filter_cons, if_pos hbeq, getLast?_cons_of_some v hrest] at habs
          simp at habs
      · intro u hu
        cases hrest : lastScrapeOf rest id with
        | none =>
          have hfil : (rest.filter fun w => w.id == id) = [] := by
            unfold lastScrapeOf at hrest
            exact List.getLast?_eq_none_iff.mp hrest
          unfold lastScrapeOf at hu
          rw [List.filter_cons, if_pos hbeq, hfil] at hu
          have huv : u = v := by simp at hu; exact hu.symm
          subst huv
          exact hnone hrest
        | some w =>
          unfold lastScrapeOf at hu hrest
          rw [List.filter_cons, if_pos hbeq, getLast?_cons_of_some v hrest] at hu
          have huw : u = w := by injection hu with h2; exact h2.symm
          subst huw
          exact hsome u hrest
    · have hstep : lookupVid (mergeVideo vs v) id = some r :=
        mergeVideo_lookup_other v hvid h
      obtain ⟨r2, hr2, ht, hd, hu, hs, hp, hy, hda, hlu, hnone, hsome⟩ :=
        ih (mergeVideo vs v) r hstep
      have hbeq : (v.id == id) = false := by
        simp [hvid]
      have hskip : lastScrapeOf (v :: rest) id = lastScrapeOf rest id := by
        unfold lastScrapeOf
        rw [List.filter_cons, if_neg (by simp [hbeq])]
      refine ⟨r2, hr2, ht, hd, hu, hs, hp, hy, hda, hlu, ?_, ?_⟩
      · intro hn
        rw [hskip] at hn
        exact hnone hn
      · intro w hw
        rw [hskip] at hw
        exact hsome w hw

/-- A record that was absent before the merge is either still absent or
was inserted fresh, with status pending. -/
theorem mergeFold_new (l : List ScrapedVideo) (vs : List (String × VideoRecord))
    (id : String) (h : lookupVid vs id = none) :
    lookupVid (l.foldl mergeVideo vs) id = none ∨
    ∃ r2, lookupVid (l.foldl mergeVideo vs) id = some r2 ∧ r2.status = "pending" := by
  induction l generalizing vs with
  | nil => exact Or.inl h
  | cons v rest ih =>
    rw [List.foldl_cons]
    by_cases hvid : v.id = id
    · have hlv : lookupVid vs v.id = none := by rw [hvid]; exact h
      have hstep : lookupVid (mergeVideo vs v) id = some (freshRecord v) := by
        unfold mergeVideo
        rw [hlv, lookupVid_append_none h]
        simp [lookupVid, hvid]
      obtain ⟨r2, hr2, _, _, _, hs, _⟩ := mergeFold_present rest (mergeVideo vs v) id _ hstep
      exact Or.inr ⟨r2, hr2, hs⟩
    · have hstep : lookupVid (mergeVideo vs v) id = none := by
        unfold mergeVideo
        cases hlv : lookupVid vs v.id with
        | none =>
          rw [lookupVid_append_none h]
          simp [lookupVid, hvid]
        | some _ =>
          rw [lookupVid_update_ne _ _ _ _ (fun he => hvid he.symm)]
          exact h
      exact ih (mergeVideo vs v) hstep

/-- Every scraped id is present after the merge. -/
theorem mergeFold_scraped_present (l : List ScrapedVideo)
    (vs : List (String × VideoRecord)) (v : ScrapedVideo) (hv : v ∈ l) :
    ∃ r2, lookupVid (l.foldl mergeVideo vs) v.id = some r2 := by
  induction l generalizing vs with
  | nil => simp at hv
  | cons w rest ih =>
    rw [List.foldl_cons]
    rcases List.mem_cons.mp hv with hvw | hvr
    · subst hvw
      have hstep : ∃ r0, lookupVid (mergeVideo vs v) v.id = some r0 := by
        unfold mergeVideo
        cases hlv : lookupVid vs v.id with
        | none =>
          rw [lookupVid_append_none hlv]
          exact ⟨freshRecord v, by simp [lookupVid]⟩
        | some r =>
          rw [lookupVid_update_self, hlv]
          exact ⟨_, rfl⟩
      obtain ⟨r0, hr0⟩ := hstep
      obtain ⟨r2, hr2, _⟩ := mergeFold_present rest (mergeVideo vs v) v.id r0 hr0
      exact ⟨r2, hr2⟩
    · exact ih (mergeVideo vs w) hvr

theorem selectNext_none_iff (videos : List (String × VideoRecord)) :
    selectNext videos = none ↔ ∀ p ∈ videos, p.2.status = "completed" := by
  induction videos with
  | nil => simp [selectNext]
  | cons p rest ih =>
    by_cases h : p.2.status = "completed"
    · have hb : (p.2.status != "completed") = false := by simp [h]
      simp only [selectNext, List.filter_cons, hb] at ih ⊢
      simp only [if_false, Bool.false_eq_true]
      rw [ih]
      simp [h]
    · have hb : (p.2.status != "completed") = true := by simp [h]
      simp only [selectNext, List.filter_cons, hb, if_true]
      constructor
      · intro habs
        simp at habs
      · intro hall
        exact absurd (hall p (List.mem_cons_self p rest)) h

theorem selectNext_some_spec (videos : List (String × VideoRecord))
    (p : String × VideoRecord) (h : selectNext videos = some p) :
    p.2.status ≠ "completed" ∧
    ∃ pre post, videos = pre ++ p :: post ∧ ∀ q ∈ pre, q.2.status = "completed" := by
  induction videos with
  | nil => simp [selectNext] at h
  | cons q rest ih =>
    by_cases hq : q.2.status = "completed"
    · have hb : (q.2.status != "completed") = false := by simp [hq]
      simp only [selectNext, List.filter_cons, hb, if_false, Bool.false_eq_true] at h
      obtain ⟨hne, pre, post, heq, hpre⟩ := ih h
      refine ⟨hne, q :: pre, post, by rw [List.cons_append, heq], ?_⟩
      intro x hx
      rcases List.mem_cons.mp hx with hxq | hxp
      · rw [hxq]; exact hq
      · exact hpre x hxp
    · have hb : (q.2.status != "completed") = true := by simp [hq]
      simp only [selectNext, List.filter_cons, hb, if_true, List.head?_cons] at h
      have hpq : q = p := by injection h
      subst hpq
      exact ⟨hq, [], rest, rfl, by simp⟩

theorem delayCount_single (s : UploadStep) : delayCount [s] = 0 := rfl

theorem delayCount_cons (s t : UploadStep) (ts : List UploadStep) :
    delayCount (s :: t :: ts) =
      (if s.outcome.isError then 0 else 1) + delayCount (t :: ts) := by
  unfold delayCount
  rw [List.dropLast_cons₂, List.filter_cons]
  cases hs : s.outcome.isError <;> simp [hs, Nat.add_comm]

theorem delayCount_step (s : UploadStep) (rest : List UploadStep) :
    delayCount (s :: rest) =
      (if rest.isEmpty then 0 else if s.outcome.isError then 0 else 1) + delayCount rest := by
  cases rest with
  | nil => simp [delayCount]
  | cons t ts =>
    rw [delayCount_cons]
    cases hs : s.outcome.isError <;> simp [hs]

theorem successIds_cons (s : UploadStep) (rest : List UploadStep) :
    successIds (s :: rest) =
      match s.outcome with
      | UploadOutcome.success id => id :: successIds rest
      | _ => successIds rest := by
  cases hs : s.outcome <;> simp [successIds, List.filterMap_cons, hs]

theorem failedParts_cons (s : UploadStep) (rest : List UploadStep) :
    failedParts (s :: rest) =
      match s.outcome with
      | UploadOutcome.success _ => failedParts rest
      | _ => s.part_num :: failedParts rest := by
  cases hs : s.outcome <;> simp [failedParts, List.filterMap_cons, hs]

theorem successCount_cons (s : UploadStep) (rest : List UploadStep) :
    successCount (s :: rest) =
      (if s.outcome.isSuccess then 1 else 0) + successCount rest := by
  unfold successCount
  rw [List.filter_cons]
  cases hs : s.outcome.isSuccess <;> simp [hs, Nat.add_comm]

theorem failCount_cons (s : UploadStep) (rest : List UploadStep) :
    failCount (s :: rest) =
      (if s.outcome.isSuccess then 0 else 1) + failCount rest := by
  unfold failCount
  rw [List.filter_cons]
  cases hs : s.outcome.isSuccess <;> simp [hs, Nat.add_comm]

/-- The upload loop computes exactly the successful ids, the failed part
numbers, and the delay count. -/
theorem uploadLoop_eq (steps : List UploadStep) :
    uploadLoop steps = (successIds steps, failedParts steps, delayCount steps) := by
  induction steps with
  | nil => rfl
  | cons s rest ih =>
    rw [successIds_cons, failedParts_cons, delayCount_step]
    cases hs : s.outcome <;>
      simp only [uploadLoop, ih, hs] <;>
      cases hrest : rest.isEmpty <;>
      simp [UploadOutcome.isError, Nat.add_comm]

theorem successIds_length (steps : List UploadStep) :
    (successIds steps).length = successCount steps := by
  induction steps with
  | nil => rfl
  | cons s rest ih =>
    rw [successIds_cons, successCount_cons]
    cases hs : s.outcome <;> simp [hs, ih, UploadOutcome.isSuccess, Nat.add_comm]

theorem failedParts_length (steps : List UploadStep) :
    (failedParts steps).length = failCount steps := by
  induction steps with
  | nil => rfl
  | cons s rest ih =>
    rw [failedParts_cons, failCount_cons]
    cases hs : s.outcome <;> simp [hs, ih, UploadOutcome.isSuccess, Nat.add_comm]

theorem failedParts_nil_iff (steps : List UploadStep) :
    failedParts steps = [] ↔ failCount steps = 0 := by
  rw [← failedParts_length, List.length_eq_zero]

/-! Claim theorems. -/

/-- C1: download_next_video selects the first record in the store's
insertion order whose status is not completed, returns none exactly when
every record is completed, never yields a completed record, and a record
in any of the partial, pending, downloaded or processed states keeps the
selection from being empty. -/
theorem c1_select_next (videos : List (String × VideoRecord)) :
    (selectNext videos = none ↔ ∀ p ∈ videos, p.2.status = "completed") ∧
    (∀ p, selectNext videos = some p →
      p.2.status ≠ "completed" ∧
      ∃ pre post, videos = pre ++ p :: post ∧ ∀ q ∈ pre, q.2.status = "completed") ∧
    (∀ p ∈ videos,
      (p.2.status = "partial" ∨ p.2.status = "pending" ∨
        p.2.status = "downloaded" ∨ p.2.status = "processed") →
      selectNext videos ≠ none) := by
  refine ⟨selectNext_none_iff videos, fun p hp => selectNext_some_spec videos p hp, ?_⟩
  intro p hp hst hnone
  have hall := (selectNext_none_iff videos).mp hnone p hp
  rcases hst with h | h | h | h <;>
    · rw [h] at hall
      exact absurd hall (by decide)

/-- C1 witness: on the spec example store [completed, pending, retryable]
the selection yields the pending record, which is indeed the first
non-completed one. -/
theorem c1_select_next_witness :
    selectNext videos1 = some ("v2", recPending) ∧
    (("v2", recPending).2.status ≠ "completed" ∧
      ∃ pre post, videos1 = pre ++ ("v2", recPending) :: post ∧
        ∀ q ∈ pre, q.2.status = "completed") :=
  ⟨by decide, (c1_select_next videos1).2.1 ("v2", recPending) (by decide)⟩

/-- C2: after upload_segments the status is completed exactly when no
upload failed and partial otherwise, the stored id list has length equal
to the success count, parts_uploaded is the contiguous 1..success-count
numbering, and on three segments whose second upload fails the record
ends partial with two stored ids. -/
theorem c2_upload_bookkeeping (r : VideoRecord) (steps : List UploadStep) (now : String) :
    ((uploadSegments r steps now).1.status = "completed" ↔ failCount steps = 0) ∧
    (failCount steps ≠ 0 → (uploadSegments r steps now).1.status = "partial") ∧
    (uploadSegments r steps now).1.youtube_video_ids.length = successCount steps ∧
    (uploadSegments r steps now).1.parts_uploaded = List.range' 1 (successCount steps) ∧
    (uploadSegments r stepsOneFail now).1.status = "partial" ∧
    (uploadSegments r stepsOneFail now).1.youtube_video_ids.length = 2 := by
  have hST : (uploadSegments r steps now).1.status
      = if failedParts steps = [] then "completed" else "partial" := by
    have h0 : (uploadSegments r steps now).1.status
        = if (uploadLoop steps).2.1 = [] then "completed" else "partial" := rfl
    rw [h0, uploadLoop_eq]
  have hIDS : (uploadSegments r steps now).1.youtube_video_ids = successIds steps := by
    have h0 : (uploadSegments r steps now).1.youtube_video_ids = (uploadLoop steps).1 := rfl
    rw [h0, uploadLoop_eq]
  have hPARTS : (uploadSegments r steps now).1.parts_uploaded
      = List.range' 1 (successIds steps).length := by
    have h0 : (uploadSegments r steps now).1.parts_uploaded
        = List.range' 1 (uploadLoop steps).1.length := rfl
    rw [h0, uploadLoop_eq]
  refine ⟨?_, ?_, ?_, ?_, rfl, rfl⟩
  · rw [hST, ← failedParts_nil_iff]
    by_cases hf : failedParts steps = []
    · simp [hf]
    · simp only [hf, if_false, iff_false]
      exact fun habs => absurd habs (by decide)
  · intro h
    rw [hST, if_neg (fun hf => h ((failedParts_nil_iff steps).mp hf))]
  · rw [hIDS, successIds_length]
  · rw [hPARTS, successIds_length]

/-- C2 witness: the three-segment example has a nonzero failure count and
the theorem instantiates to status partial on it. -/
theorem c2_upload_bookkeeping_witness :
    failCount stepsOneFail ≠ 0 ∧
    (uploadSegments sampleRecord stepsOneFail ("now")).1.status = "partial" :=
  ⟨by decide, (c2_upload_bookkeeping sampleRecord stepsOneFail ("now")).2.1 (by decide)⟩

/-- C7 counterexample: on a record already holding an id from an earlier
invocation, a retry run with one fresh successful upload replaces the
stored list, so the old list is not a prefix of the new one. -/
theorem c7_counterexample :
    ¬ (sampleRecord.youtube_video_ids <+:
      (uploadSegments sampleRecord stepsRetry ("t2")).1.youtube_video_ids) := by
  decide

/-- C7 amended: upload_segments overwrites youtube_video_ids with exactly
the successful ids of the current invocation, independently of whatever
the record held before. -/
theorem c7_ids_replaced (r r2 : VideoRecord) (steps : List UploadStep) (now now2 : String) :
    (uploadSegments r steps now).1.youtube_video_ids = successIds steps ∧
    (uploadSegments r steps now).1.youtube_video_ids
      = (uploadSegments r2 steps now2).1.youtube_video_ids := by
  have h0 : ∀ (x : VideoRecord) (n : String),
      (uploadSegments x steps n).1.youtube_video_ids = (uploadLoop steps).1 :=
    fun _ _ => rfl
  rw [h0, h0, uploadLoop_eq]
  exact ⟨rfl, rfl⟩

/-- C9 counterexample: with three segments whose second upload raises an
exception, the inter-upload delay runs only once, not the claimed
n - 1 = 2 times. -/
theorem c9_counterexample : (uploadLoop stepsErrMid).2.2 ≠ 3 - 1 := by
  decide

/-- C9 amended: the delay runs after every attempt except the last one
and except any attempt that raised an exception; when no attempt raises,
the count is exactly n - 1 (failures by falsy return still delay), and on
three segments whose second upload fails by falsy return it runs twice. -/
theorem c9_delay_schedule (steps : List UploadStep) :
    (uploadLoop steps).2.2 = delayCount steps ∧
    ((∀ s ∈ steps, s.outcome ≠ UploadOutcome.error) →
      (uploadLoop steps).2.2 = steps.length - 1) ∧
    (uploadLoop stepsOneFail).2.2 = 2 := by
  refine ⟨by rw [uploadLoop_eq], ?_, by decide⟩
  intro hne
  rw [uploadLoop_eq]
  unfold delayCount
  have hall : ∀ s ∈ steps.dropLast, (!s.outcome.isError) = true := by
    intro s hs
    have hmem : s ∈ steps := (List.dropLast_sublist steps).subset hs
    cases houtcome : s.outcome with
    | success id => simp [houtcome, UploadOutcome.isError]
    | failure => simp [houtcome, UploadOutcome.isError]
    | error => exact absurd houtcome (hne s hmem)
  rw [List.filter_eq_self.mpr hall, List.length_dropLast]

/-- C9 witness: the three-segment falsy-failure example raises nowhere,
and the theorem yields exactly length - 1 delays on it. -/
theorem c9_delay_schedule_witness :
    (∀ s ∈ stepsOneFail, s.outcome ≠ UploadOutcome.error) ∧
    (uploadLoop stepsOneFail).2.2 = stepsOneFail.length - 1 :=
  ⟨by decide, (c9_delay_schedule stepsOneFail).2.1 (by decide)⟩

/-- C3 counterexample: the claim asserts both region heights are even for
every canvas, but a canvas of height 1921 with fraction 7/10 gives a
bottom region of 523, which is odd. -/
theorem c3_counterexample :
    (buildSplitLayout 1921 (7/10)).bottom_h = 523 ∧
    ¬ (2 ∣ (buildSplitLayout 1921 (7/10)).bottom_h) := by
  have h : (buildSplitLayout 1921 (7/10)).bottom_h = 523 := by
    unfold buildSplitLayout pyInt
    norm_num
  refine ⟨h, ?_⟩
  rw [h]
  omega

/-- C3 amended: available = H - 180, the top height is the floor of
available times the fraction rounded down to the nearest even integer,
the bottom height is the remainder, the three bands sum to the canvas
height, and the bottom height is even whenever available is even (for an
odd available it is odd); the 1080 by 1920 example gives 1740, 1218 and
522. -/
theorem c3_split_layout (H : ℤ) (f : ℚ)
    (hq : 0 ≤ ((H - 180 : ℤ) : ℚ) * f) :
    (buildSplitLayout H f).header_h = 180 ∧
    (buildSplitLayout H f).available_h = H - 180 ∧
    (2 ∣ (buildSplitLayout H f).top_h) ∧
    (buildSplitLayout H f).top_h ≤ ⌊((H - 180 : ℤ) : ℚ) * f⌋ ∧
    ⌊((H - 180 : ℤ) : ℚ) * f⌋ ≤ (buildSplitLayout H f).top_h + 1 ∧
    (buildSplitLayout H f).bottom_h
      = (buildSplitLayout H f).available_h - (buildSplitLayout H f).top_h ∧
    (buildSplitLayout H f).top_h + (buildSplitLayout H f).bottom_h + 180 = H ∧
    (2 ∣ (buildSplitLayout H f).available_h → 2 ∣ (buildSplitLayout H f).bottom_h) ∧
    buildSplitLayout 1920 (7/10) = ⟨180, 1740, 1218, 522⟩ := by
  have hpy : pyInt (((H - 180 : ℤ) : ℚ) * f) = ⌊((H - 180 : ℤ) : ℚ) * f⌋ := by
    unfold pyInt
    rw [if_neg (not_lt.mpr hq)]
  have hh : (buildSplitLayout H f).header_h = 180 := rfl
  have ha : (buildSplitLayout H f).available_h = H - 180 := rfl
  have htp : (buildSplitLayout H f).top_h
      = if ⌊((H - 180 : ℤ) : ℚ) * f⌋ % 2 ≠ 0
        then ⌊((H - 180 : ℤ) : ℚ) * f⌋ - 1 else ⌊((H - 180 : ℤ) : ℚ) * f⌋ := by
    have h0 : (buildSplitLayout H f).top_h
        = if pyInt (((H - 180 : ℤ) : ℚ) * f) % 2 ≠ 0
          then pyInt (((H - 180 : ℤ) : ℚ) * f) - 1
          else pyInt (((H - 180 : ℤ) : ℚ) * f) := rfl
    rw [h0, hpy]
  have hbt : (buildSplitLayout H f).bottom_h
      = (H - 180) - (buildSplitLayout H f).top_h := rfl
  refine ⟨hh, ha, ?_, ?_, ?_, hbt, ?_, ?_, ?_⟩
  · rw [htp]
    split_ifs with h2 <;> omega
  · rw [htp]
    split_ifs with h2 <;> omega
  · rw [htp]
    split_ifs with h2 <;> omega
  · rw [hbt]
    omega
  · rw [ha, hbt, htp]
    split_ifs with h2 <;> omega
  · unfold buildSplitLayout pyInt
    norm_num

/-- C3 witness: on the 1080 by 1920 canvas with fraction 7/10 the product
is nonnegative and the theorem yields the 1740, 1218, 522 layout. -/
theorem c3_split_layout_witness :
    0 ≤ ((1920 - 180 : ℤ) : ℚ) * (7/10) ∧
    buildSplitLayout 1920 (7/10) = ⟨180, 1740, 1218, 522⟩ :=
  ⟨by norm_num, (c3_split_layout 1920 (7/10) (by norm_num)).2.2.2.2.2.2.2.2⟩

/-- C6 counterexample: with fraction 2 the planner raises no error and
emits a layout whose bottom region height is -1740, refuting the claim
that a plan with a negative region is never produced. -/
theorem c6_counterexample :
    (buildSplitLayout 1920 2).bottom_h = -1740 ∧
    (buildSplitLayout 1920 2).bottom_h < 0 := by
  have h : (buildSplitLayout 1920 2).bottom_h = -1740 := by
    unfold buildSplitLayout pyInt
    norm_num
  exact ⟨h, by rw [h]; norm_num⟩

/-- C6 amended: the planner validates nothing: for every fraction it
totally produces a layout whose bands sum to the canvas height, and a
fraction above one (here 2) yields a negative bottom region instead of a
configuration error. -/
theorem c6_no_rejection (H : ℤ) (f : ℚ) :
    (buildSplitLayout H f).top_h + (buildSplitLayout H f).bottom_h + 180 = H ∧
    (buildSplitLayout 1920 2).bottom_h = -1740 := by
  constructor
  · have hbt : (buildSplitLayout H f).bottom_h
        = (H - 180) - (buildSplitLayout H f).top_h := rfl
    rw [hbt]
    omega
  · unfold buildSplitLayout pyInt
    norm_num

/-- C4: a discovery merge keeps status, part lists, id lists, timestamps
and the immutable fields of every already-present record, refreshes only
its view count and published label from the last scraped entry with its
id, inserts every new identifier with status pending, and leaves every
scraped id present. -/
theorem c4_scrape_merge_frame (st : TrackingStore) (url now : String)
    (scraped : List ScrapedVideo) :
    (∀ id r, lookupVid st.videos id = some r →
      ∃ r2, lookupVid (scrapeChannel st url now scraped).videos id = some r2 ∧
        r2.status = r.status ∧
        r2.parts_uploaded = r.parts_uploaded ∧
        r2.youtube_video_ids = r.youtube_video_ids ∧
        r2.downloaded_at = r.downloaded_at ∧
        r2.last_upload = r.last_upload ∧
        r2.title = r.title ∧ r2.duration = r.duration ∧ r2.url = r.url ∧
        (lastScrapeOf scraped id = none →
          r2.views = r.views ∧ r2.published = r.published) ∧
        (∀ v, lastScrapeOf scraped id = some v →
          r2.views = v.views ∧ r2.published = publishedLabel v)) ∧
    (∀ id r2, lookupVid st.videos id = none →
      lookupVid (scrapeChannel st url now scraped).videos id = some r2 →
      r2.status = "pending") ∧
    (∀ v ∈ scraped, ∃ r2,
      lookupVid (scrapeChannel st url now scraped).videos v.id = some r2) := by
  have hvids : (scrapeChannel st url now scraped).videos
      = scraped.foldl mergeVideo st.videos := rfl
  refine ⟨?_, ?_, ?_⟩
  · intro id r h
    obtain ⟨r2, hr2, ht, hd, hu, hs, hp, hy, hda, hlu, hnone, hsome⟩ :=
      mergeFold_present scraped st.videos id r h
    exact ⟨r2, hvids ▸ hr2, hs, hp, hy, hda, hlu, ht, hd, hu, hnone, hsome⟩
  · intro id r2 hnone hsome
    rw [hvids] at hsome
    rcases mergeFold_new scraped st.videos id hnone with h | ⟨r3, hr3, hs3⟩
    · rw [h] at hsome
      cases hsome
    · rw [hr3] at hsome
      injection hsome with he
      rw [← he]
      exact hs3
  · intro v hv
    obtain ⟨r2, hr2⟩ := mergeFold_scraped_present scraped st.videos v hv
    exact ⟨r2, hvids ▸ hr2⟩

/-- C4 witness: merging a scrape that re-lists the known id a and adds a
new id b preserves every non-refreshed field of the record at a. -/
theorem c4_scrape_merge_frame_witness :
    lookupVid st0.videos ("a") = some rec0 ∧
    (∃ r2, lookupVid (scrapeChannel st0 ("u") ("n") scraped0).videos ("a") = some r2 ∧
      r2.status = rec0.status ∧
      r2.parts_uploaded = rec0.parts_uploaded ∧
      r2.youtube_video_ids = rec0.youtube_video_ids ∧
      r2.downloaded_at = rec0.downloaded_at ∧
      r2.last_upload = rec0.last_upload ∧
      r2.title = rec0.title ∧ r2.duration = rec0.duration ∧ r2.url = rec0.url ∧
      (lastScrapeOf scraped0 ("a") = none →
        r2.views = rec0.views ∧ r2.published = rec0.published) ∧
      (∀ v, lastScrapeOf scraped0 ("a") = some v →
        r2.views = v.views ∧ r2.published = publishedLabel v)) :=
  ⟨by decide, (c4_scrape_merge_frame st0 ("u") ("n") scraped0).1 ("a") rec0 (by decide)⟩

/-- C5 counterexample: stopping after three characters of the new
serialization leaves the file holding neither the prior content nor the
new one, so a partial state is observable and the prior file is gone. -/
theorem c5_counterexample :
    saveTrackingDiskState ("OLDDATA") ("NEWDATA") 3 ≠ "OLDDATA" ∧
    saveTrackingDiskState ("OLDDATA") ("NEWDATA") 3 ≠ "NEWDATA" := by
  decide

/-- C5 amended: the save is a truncating in-place write, not an atomic
one: the on-disk state never depends on the prior content, any
interrupted state is a prefix of the new serialization, and only a
complete write reproduces the full mapping. -/
theorem c5_save_truncating (prior serialized : String) (k : ℕ) :
    (∀ prior2, saveTrackingDiskState prior2 serialized k
      = saveTrackingDiskState prior serialized k) ∧
    ((saveTrackingDiskState prior serialized k).data <+: serialized.data) ∧
    (serialized.length ≤ k → saveTrackingDiskState prior serialized k = serialized) := by
  refine ⟨fun _ => rfl, ?_, ?_⟩
  · show serialized.data.take k <+: serialized.data
    exact List.take_prefix k serialized.data
  · intro hk
    show String.mk (serialized.data.take k) = serialized
    rw [List.take_of_length_le hk]

/-- C5 witness: a write of all of NEW (bound five) reproduces NEW
regardless of the OLD content. -/
theorem c5_save_truncating_witness :
    ("NEW" : String).length ≤ 5 ∧ saveTrackingDiskState ("OLD") ("NEW") 5 = "NEW" :=
  ⟨by decide, (c5_save_truncating ("OLD") ("NEW") 5).2.2 (by decide)⟩

/-- C8 counterexample: a 4:5 source against a 9:16 target is wider than
the target (4/5 exceeds 9/16), so the code selects the wide branch, not
the narrow one the claim names. -/
theorem c8_counterexample : blurBranch 4 5 9 16 ≠ AspectBranch.narrow := by
  have h : blurBranch 4 5 9 16 = AspectBranch.wide := by
    unfold blurBranch
    norm_num
  rw [h]
  decide

/-- C8 amended: branch selection is a total function of the two aspect
ratios with the three branches characterized by the rational comparison;
16:9 against 9:16 is wide, 9:16 against 9:16 is equal, and 4:5 against
9:16 is wide (it is wider than the target); the equal branch emits no
crop step while the narrow branch does. -/
theorem c8_blur_branch_total (in_w in_h out_w out_h : ℕ) :
    (blurBranch in_w in_h out_w out_h = AspectBranch.wide ↔
      (out_w : ℚ) / (out_h : ℚ) < (in_w : ℚ) / (in_h : ℚ)) ∧
    (blurBranch in_w in_h out_w out_h = AspectBranch.narrow ↔
      (in_w : ℚ) / (in_h : ℚ) < (out_w : ℚ) / (out_h : ℚ)) ∧
    (blurBranch in_w in_h out_w out_h = AspectBranch.equal ↔
      (in_w : ℚ) / (in_h : ℚ) = (out_w : ℚ) / (out_h : ℚ)) ∧
    blurBranch 16 9 9 16 = AspectBranch.wide ∧
    blurBranch 9 16 9 16 = AspectBranch.equal ∧
    blurBranch 4 5 9 16 = AspectBranch.wide ∧
    ¬ (("crop").data <:+: (blurFilter 9 16 9 16).data) ∧
    (("crop").data <:+: (blurFilter 1 2 9 16).data) := by
  have heq : blurBranch 9 16 9 16 = AspectBranch.equal := by
    unfold blurBranch
    norm_num
  have hnar : blurBranch 1 2 9 16 = AspectBranch.narrow := by
    unfold blurBranch
    norm_num
  have hiff :
      (blurBranch in_w in_h out_w out_h = AspectBranch.wide ↔
        (out_w : ℚ) / (out_h : ℚ) < (in_w : ℚ) / (in_h : ℚ)) ∧
      (blurBranch in_w in_h out_w out_h = AspectBranch.narrow ↔
        (in_w : ℚ) / (in_h : ℚ) < (out_w : ℚ) / (out_h : ℚ)) ∧
      (blurBranch in_w in_h out_w out_h = AspectBranch.equal ↔
        (in_w : ℚ) / (in_h : ℚ) = (out_w : ℚ) / (out_h : ℚ)) := by
    unfold blurBranch
    rcases lt_trichotomy ((in_w : ℚ) / (in_h : ℚ)) ((out_w : ℚ) / (out_h : ℚ))
      with h | h | h
    · rw [if_neg (lt_asymm h), if_pos h]
      exact ⟨iff_of_false (by decide) (lt_asymm h), iff_of_true rfl h,
        iff_of_false (by decide) (ne_of_lt h)⟩
    · have h1 : ¬ ((in_w : ℚ) / (in_h : ℚ) > (out_w : ℚ) / (out_h : ℚ)) := by
        rw [h]
        exact lt_irrefl _
      have h2 : ¬ ((in_w : ℚ) / (in_h : ℚ) < (out_w : ℚ) / (out_h : ℚ)) := by
        rw [h]
        exact lt_irrefl _
      rw [if_neg h1, if_neg h2]
      exact ⟨iff_of_false (by decide) h1, iff_of_false (by decide) h2,
        iff_of_true rfl h⟩
    · rw [if_pos h]
      exact ⟨iff_of_true rfl h, iff_of_false (by decide) (lt_asymm h),
        iff_of_false (by decide) (ne_of_gt h)⟩
  refine ⟨hiff.1, hiff.2.1, hiff.2.2, ?_, heq, ?_, ?_, ?_⟩
  · unfold blurBranch
    norm_num
  · unfold blurBranch
    norm_num
  · unfold blurFilter
    rw [heq]
    decide
  · unfold blurFilter
    rw [hnar]
    decide

set_option maxRecDepth 20000 in
/-- C10: the split-screen program applies hflip to the main stream as its
very first step, before its scale and crop, for every layout, while the
blur-background program holds no hflip anywhere for any dimensions: the
two modes mirror the source inconsistently. -/
theorem c10_flip_behavior (out_w out_h : ℤ) (top_pct : ℚ) (iw ih ow oh : ℕ) :
    (∃ rest, (splitScreenFilter out_w out_h top_pct).data
      = ("[0:v]hflip,scale=").data ++ rest) ∧
    (("hflip").data <:+: (splitScreenFilter out_w out_h top_pct).data) ∧
    ¬ (("hflip").data <:+: (blurFilter iw ih ow oh).data) := by
  have hsplit : ∃ rest, (splitScreenFilter out_w out_h top_pct).data
      = ("[0:v]hflip,scale=").data ++ rest := by
    unfold splitScreenFilter
    simp only [String.data_append, List.append_assoc]
    exact ⟨_, rfl⟩
  refine ⟨hsplit, ?_, ?_⟩
  · obtain ⟨rest, hr⟩ := hsplit
    rw [hr]
    have hdecomp : ("[0:v]hflip,scale=").data
        = ("[0:v]").data ++ ("hflip").data ++ (",scale=").data := by decide
    rw [hdecomp, List.append_assoc, List.append_assoc]
    exact ⟨("[0:v]").data, (",scale=").data ++ rest, by simp⟩
  · intro hinf
    have h2 := isInfix_filter_of_all (p := Char.isAlpha) (by decide) hinf
    revert h2
    unfold blurFilter
    cases blurBranch iw ih ow oh <;>
      · simp only [String.data_append, List.filter_append, alpha_filter_toString_nat]
        decide

end ShortsAutomation
